import Mathlib

/-!
Verification of the deployment-dashboard server (`src/dashboard/server.py`).

The Python module keeps two process-wide mutable variables,
`deployment_logs` (a list of log-entry dicts) and `running_processes`
(a dict from job key to process handle).  We embed them shallowly:
log entries become a structure, the dict becomes an insertion-ordered
association list with Python-dict update semantics, and the stateful
functions become pure functions on this state.  The background job
runner `run_script_async` is embedded as the sequence of observable
events (log appends, registry insertions and removals) it performs,
so that temporal claims can be stated about every intermediate state
of a run.
-/

namespace Dashboard

/-- One entry of `deployment_logs`: the dict built by `log_message`
with fields `timestamp`, `level`, `message`. -/
structure LogEntry where
  timestamp : Nat
  level : String
  message : String
deriving DecidableEq, Repr, Inhabited

/-- Embedding of `log_message` (server.py lines 24-38): append an
entry carrying the current time, then, if the length now exceeds 100,
`deployment_logs.pop(0)` removes the oldest entry. -/
def log_message (logs : List LogEntry) (now : Nat) (message : String)
    (level : String) : List LogEntry :=
  let log_entry : LogEntry := { timestamp := now, level := level, message := message }
  let appended := logs ++ [log_entry]
  if appended.length > 100 then appended.drop 1 else appended

/-- The last `n` elements of a list (all of it when it is shorter). -/
def lastN (n : Nat) (l : List α) : List α :=
  l.drop (l.length - n)

/-- The entry a call `log_message(message, level)` at time `now` creates,
for an input triple `(now, message, level)`. -/
def mkLogEntry (x : Nat × String × String) : LogEntry :=
  { timestamp := x.1, level := x.2.2, message := x.2.1 }

/-- Run a whole sequence of `log_message` calls, each input a triple
`(now, message, level)`, starting from the empty log the module
initialises at import time. -/
def runAppends (inputs : List (Nat × String × String)) : List LogEntry :=
  inputs.foldl (fun logs x => log_message logs x.1 x.2.1 x.2.2) []

/-- The registry key built at server.py line 58:
`process_key = f"{app_type}_{app_name}"`. -/
def process_key (app_type app_name : String) : String :=
  app_type ++ "_" ++ app_name

/-- The keys of the `script_map` dict in `deploy_app` (server.py lines
201-206); `deploy_app` rejects any other `app_type` with a 400 before a
job is ever started. -/
def script_map_types : List String :=
  ["docker", "kubernetes", "ansible", "terraform"]

/-- A Python dict from job key to process handle (we model the handle
by a numeric id), as an insertion-ordered association list. -/
abbrev Registry : Type := List (String × Nat)

/-- Python dict assignment `running_processes[key] = v` (server.py
line 59): an existing key keeps its position and gets the new value; a
fresh key is appended at the end. -/
def dictInsert (m : Registry) (k : String) (v : Nat) : Registry :=
  if (List.any m fun p => p.1 == k) then
    List.map (fun p => if p.1 == k then (k, v) else p) m
  else
    m ++ [(k, v)]

/-- The conditional delete at server.py lines 71-72:
`if process_key in running_processes: del running_processes[process_key]`
(a no-op when the key is absent). -/
def dictRemove (m : Registry) (k : String) : Registry :=
  List.filter (fun p => !(p.1 == k)) m

/-- Python `key in dict`. -/
def dictContains (m : Registry) (k : String) : Bool :=
  List.any m fun p => p.1 == k

/-- The two process-wide mutable variables of server.py (lines 21-22). -/
structure ServerState where
  deployment_logs : List LogEntry
  running_processes : Registry
deriving DecidableEq, Inhabited

/-- Python `str.strip()` character class: ASCII whitespace. -/
def isPySpace (c : Char) : Bool :=
  c == ' ' || c == '\t' || c == '\n' || c == '\r' || c == Char.ofNat 11 || c == Char.ofNat 12

/-- Python `line.strip()`: drop leading and trailing whitespace. -/
def pyStrip (s : String) : String :=
  ⟨((s.data.dropWhile isPySpace).reverse.dropWhile isPySpace).reverse⟩

/-- One observable side effect of `run_script_async` on the shared
state: a `log_message` call, a registry insertion, or a registry
removal. -/
inductive Event where
  | log (message : String) (level : String)
  | register (key : String) (pid : Nat)
  | unregister (key : String)
deriving DecidableEq

/-- What the launched process did: either `subprocess.Popen` succeeded
and the process produced the given output lines and exit code, or the
launch itself raised with the given message `str(e)`. -/
inductive LaunchResult where
  | ok (pid : Nat) (outputLines : List String) (exitCode : Int)
  | failed (err : String)

/-- The log events of the output loop at server.py lines 62-65: each
line is stripped; a non-empty result is logged at the default INFO
level as `f"[{app_name}] {line}"`. -/
def lineLogEvents (app_name : String) (lines : List String) : List Event :=
  lines.filterMap fun line =>
    let stripped := pyStrip line
    if stripped == "" then none
    else some (Event.log ("[" ++ app_name ++ "] " ++ stripped) "INFO")

/-- The sequence of shared-state effects of one `run_script_async`
call (server.py lines 40-80), in program order: the starting INFO log;
then, if `Popen` raised, only the except-branch ERROR log; otherwise
the registry insertion under `process_key`, the per-line INFO logs,
the conditional registry delete after `process.wait()`, and the
terminal SUCCESS or ERROR log depending on the exit code. -/
def run_script_async_events (app_type app_name : String)
    (launch : LaunchResult) : List Event :=
  Event.log ("Starting " ++ app_type ++ " deployment: " ++ app_name) "INFO" ::
    match launch with
    | LaunchResult.failed err =>
        [Event.log ("Error deploying " ++ app_name ++ ": " ++ err) "ERROR"]
    | LaunchResult.ok pid lines rc =>
        Event.register (process_key app_type app_name) pid ::
          (lineLogEvents app_name lines ++
            [Event.unregister (process_key app_type app_name),
             if rc = 0 then
               Event.log ("Successfully deployed " ++ app_name) "SUCCESS"
             else
               Event.log ("Failed to deploy " ++ app_name ++
                 " (exit code: " ++ toString rc ++ ")") "ERROR"])

/-- Apply one event to the shared state; `t` is the wall-clock value
`datetime.now()` would return for a log event. -/
def applyEvent (t : Nat) (s : ServerState) (e : Event) : ServerState :=
  match e with
  | Event.log msg lvl =>
      { s with deployment_logs := log_message s.deployment_logs t msg lvl }
  | Event.register k pid =>
      { s with running_processes := dictInsert s.running_processes k pid }
  | Event.unregister k =>
      { s with running_processes := dictRemove s.running_processes k }

/-- Run a list of events from a state; `clock i` is the wall-clock
reading at the `i`-th step counting from `i0`. -/
def execEventsFrom (clock : Nat → Nat) (i0 : Nat) (s : ServerState) :
    List Event → ServerState
  | [] => s
  | e :: es => execEventsFrom clock (i0 + 1) (applyEvent (clock i0) s e) es

/-- The state after the first `i` events of a `run_script_async` call
with the given parameters, starting from state `s0`. -/
def stateAfter (clock : Nat → Nat) (s0 : ServerState)
    (app_type app_name : String) (launch : LaunchResult) (i : Nat) : ServerState :=
  execEventsFrom clock 0 s0 ((run_script_async_events app_type app_name launch).take i)

/-- The states an HTTP caller of `deploy_app` (server.py lines
194-255) may observe at the moment the route handler returns: the
handler only calls `thread.start()` (line 246) and returns, with no
synchronisation, so the daemon thread running `run_script_async` may
have completed any prefix of its events by then. -/
def deploy_app_statesAtReturn (clock : Nat → Nat) (s0 : ServerState)
    (app_type app_name : String) (launch : LaunchResult) : List ServerState :=
  (List.range ((run_script_async_events app_type app_name launch).length + 1)).map
    (stateAfter clock s0 app_type app_name launch)

/-- The body of the output loop at server.py lines 62-65 as a function
of the current log: strip the line and log it at INFO when non-empty. -/
def processLine (logs : List LogEntry) (app_name : String) (t : Nat)
    (line : String) : List LogEntry :=
  let stripped := pyStrip line
  if stripped == "" then logs
  else log_message logs t ("[" ++ app_name ++ "] " ++ stripped) "INFO"

/-- The entry a non-empty output line contributes to the log. -/
def lineEntry (app_name : String) (t : Nat) (line : String) : LogEntry :=
  { timestamp := t, level := "INFO", message := "[" ++ app_name ++ "] " ++ pyStrip line }

/-- The `/api/logs` handler body (server.py line 293):
`deployment_logs[-50:]`, the last at-most-50 entries. -/
def get_logs (logs : List LogEntry) : List LogEntry :=
  logs.drop (logs.length - 50)

/-- The JSON object built by the `/api/status` handler. -/
structure StatusResp where
  running_deployments : Nat
  total_logs : Nat
  last_activity : Option Nat
  processes : List String
deriving DecidableEq

/-- The `/api/status` handler body (server.py lines 295-310):
`running_deployments` is `len(running_processes)`, `total_logs` is
`len(deployment_logs)`, `last_activity` is
`deployment_logs[-1]['timestamp'] if deployment_logs else None`, and
`processes` is `list(running_processes.keys())`. -/
def get_status (s : ServerState) : StatusResp :=
  let running_count := s.running_processes.length
  { running_deployments := running_count
    total_logs := s.deployment_logs.length
    last_activity :=
      if h : s.deployment_logs = [] then none
      else some ((s.deployment_logs.getLast h).timestamp)
    processes := s.running_processes.map Prod.fst }

/-- The `/api/logs` route as a state transformer: its body only reads
`deployment_logs`, so the state it leaves behind is the state it got. -/
def api_logs_handler (s : ServerState) : ServerState × List LogEntry :=
  (s, get_logs s.deployment_logs)

/-- The `/api/status` route as a state transformer: its body only
reads the two globals. -/
def api_status_handler (s : ServerState) : ServerState × StatusResp :=
  (s, get_status s)

/-- Whether an event is a bare `log_message` call (no registry effect). -/
def eventIsLog : Event → Bool
  | Event.log _ _ => true
  | _ => false

/-- How many events of a trace are `log_message` calls at the given
level. -/
def countLevel (events : List Event) (lvl : String) : Nat :=
  events.countP fun e =>
    match e with
    | Event.log _ l => decide (l = lvl)
    | _ => false

theorem lastN_of_length_le {l : List α} {n : Nat} (h : l.length ≤ n) :
    lastN n l = l := by
  unfold lastN
  rw [Nat.sub_eq_zero_of_le h, List.drop_zero]

theorem lastN_length (n : Nat) (l : List α) :
    (lastN n l).length = min n l.length := by
  unfold lastN
  rw [List.length_drop]
  omega

theorem log_message_eq_lastN {logs : List LogEntry} (now : Nat)
    (message level : String) (h : logs.length ≤ 100) :
    log_message logs now message level =
      lastN 100 (logs ++ [{ timestamp := now, level := level, message := message }]) := by
  unfold log_message lastN
  simp only [List.length_append, List.length_cons, List.length_nil]
  by_cases h1 : logs.length + 1 > 100
  · have h2 : logs.length = 100 := by omega
    simp [h1, h2]
  · have h2 : logs.length + 1 - 100 = 0 := by omega
    simp [h1, h2]

theorem lastN_append_lastN (n : Nat) (A B : List α) :
    lastN n (lastN n A ++ B) = lastN n (A ++ B) := by
  unfold lastN
  rw [List.length_append, List.drop_append_eq_append_drop,
    List.length_append, List.drop_append_eq_append_drop,
    List.length_drop, List.drop_drop]
  have h1 : A.length - n + (A.length - (A.length - n) + B.length - n) =
      A.length + B.length - n := by omega
  have h2 : A.length - (A.length - n) + B.length - n - (A.length - (A.length - n)) =
      A.length + B.length - n - A.length := by omega
  rw [h1, h2]

theorem foldl_log_message_eq_lastN (inputs : List (Nat × String × String)) :
    ∀ logs : List LogEntry, logs.length ≤ 100 →
      inputs.foldl (fun logs x => log_message logs x.1 x.2.1 x.2.2) logs =
        lastN 100 (logs ++ inputs.map mkLogEntry) := by
  induction inputs with
  | nil =>
      intro logs h
      simp [lastN_of_length_le h]
  | cons x xs ih =>
      intro logs h
      rw [List.foldl_cons]
      have hlen : (log_message logs x.1 x.2.1 x.2.2).length ≤ 100 := by
        rw [log_message_eq_lastN x.1 x.2.1 x.2.2 h, lastN_length]
        omega
      rw [ih _ hlen, log_message_eq_lastN x.1 x.2.1 x.2.2 h]
      have hmk : ({ timestamp := x.1, level := x.2.2, message := x.2.1 } : LogEntry) =
          mkLogEntry x := rfl
      rw [hmk, lastN_append_lastN, List.append_assoc]
      rfl

/-- C1: every sequence of `log_message` calls leaves `deployment_logs`
holding exactly the most recent `min (length, 100)` entries in append
order: the length never exceeds 100, the retained sequence is the
last-100 suffix of all entries ever appended, and a single append onto
a log at or under the cap keeps exactly the newest at-most-100 entries,
evicting only the oldest one (FIFO). -/
theorem log_bounded_fifo :
    (∀ inputs : List (Nat × String × String),
      (runAppends inputs).length = min inputs.length 100 ∧
      runAppends inputs = lastN 100 (inputs.map mkLogEntry)) ∧
    (∀ (logs : List LogEntry) (now : Nat) (message level : String),
      logs.length ≤ 100 →
      log_message logs now message level =
        lastN 100 (logs ++ [{ timestamp := now, level := level, message := message }])) := by
  constructor
  · intro inputs
    have h := foldl_log_message_eq_lastN inputs [] (by simp)
    rw [List.nil_append] at h
    refine ⟨?_, h⟩
    rw [runAppends, h, lastN_length, List.length_map, Nat.min_comm]
  · intro logs now message level h
    exact log_message_eq_lastN now message level h

/-- C1 witness: three appends retain all three entries in order, and an
append onto a full log of 100 entries evicts exactly the oldest. -/
theorem log_bounded_fifo_witness :
    (runAppends [(1, "a", "INFO"), (2, "b", "INFO"), (3, "c", "ERROR")]).length =
        min 3 100 ∧
    log_message (List.replicate 100 { timestamp := 0, level := "INFO", message := "x" })
        5 "y" "INFO" =
      lastN 100 (List.replicate 100 { timestamp := 0, level := "INFO", message := "x" } ++
        [{ timestamp := 5, level := "INFO", message := "y" }]) := by
  constructor
  · exact ((log_bounded_fifo.1 [(1, "a", "INFO"), (2, "b", "INFO"), (3, "c", "ERROR")]).1)
  · exact log_bounded_fifo.2 (List.replicate 100 _) 5 "y" "INFO" (by simp)

theorem lastN_lastN {m n : Nat} (h : m ≤ n) (l : List α) :
    lastN m (lastN n l) = lastN m l := by
  unfold lastN
  rw [List.drop_drop, List.length_drop]
  congr 1
  omega

theorem get_logs_eq_lastN (logs : List LogEntry) : get_logs logs = lastN 50 logs := rfl

/-- C6: `GET /api/logs` returns exactly the last `min (50, length)`
retained entries, as a suffix of the retained sequence (hence in append
order, newest last); over any whole run of appends it returns the last
50 of all entries ever appended, so after 120 appends it returns
exactly 50 entries, the most recent ones. -/
theorem api_logs_returns_last_50 :
    (∀ logs : List LogEntry,
      (get_logs logs).length = min 50 logs.length ∧
      List.IsSuffix (get_logs logs) logs) ∧
    (∀ inputs : List (Nat × String × String),
      get_logs (runAppends inputs) = lastN 50 (inputs.map mkLogEntry)) ∧
    (∀ inputs : List (Nat × String × String), inputs.length = 120 →
      (get_logs (runAppends inputs)).length = 50) := by
  have hrun : ∀ inputs : List (Nat × String × String),
      get_logs (runAppends inputs) = lastN 50 (inputs.map mkLogEntry) := by
    intro inputs
    have h := foldl_log_message_eq_lastN inputs [] (by simp)
    rw [List.nil_append] at h
    rw [runAppends, h, get_logs_eq_lastN, lastN_lastN (by omega)]
  refine ⟨fun logs => ⟨?_, ?_⟩, hrun, fun inputs h120 => ?_⟩
  · rw [get_logs_eq_lastN, lastN_length]
  · exact List.drop_suffix _ _
  · rw [hrun inputs, lastN_length, List.length_map, h120]
    omega

/-- C6 witness: a run of 120 appends leaves `GET /api/logs` returning
exactly 50 entries. -/
theorem api_logs_returns_last_50_witness :
    (get_logs (runAppends (List.replicate 120 (0, "m", "INFO")))).length = 50 :=
  api_logs_returns_last_50.2.2 (List.replicate 120 (0, "m", "INFO")) (by simp)

/-- C9: the `/api/status` snapshot reports the registry size as
`running_deployments`, the retained log length as `total_logs`, the
timestamp of the most recent log entry (none when the log is empty) as
`last_activity`, and the registry keys as `processes`. -/
theorem api_status_fields (s : ServerState) :
    (get_status s).running_deployments = s.running_processes.length ∧
    (get_status s).total_logs = s.deployment_logs.length ∧
    (get_status s).last_activity =
      Option.map LogEntry.timestamp s.deployment_logs.getLast? ∧
    (get_status s).processes = s.running_processes.map Prod.fst := by
  refine ⟨rfl, rfl, ?_, rfl⟩
  by_cases h : s.deployment_logs = []
  · simp [get_status, h]
  · simp [get_status, h, List.getLast?_eq_getLast _ h]

/-- C10: the read-only routes `GET /api/logs` and `GET /api/status`
leave both shared variables exactly as they found them. -/
theorem readonly_routes_preserve_state (s : ServerState) :
    (api_logs_handler s).1 = s ∧ (api_status_handler s).1 = s :=
  ⟨rfl, rfl⟩

/-- C3: evaluating the registration step at a state whose registry
already holds the job key: `running_processes[process_key] = process`
silently replaces the stored handle (here handle 1 becomes handle 2)
and signals nothing, instead of raising a DuplicateJob condition. -/
theorem register_overwrites_duplicate_key :
    dictContains [(process_key "docker" "myapp", 1)] (process_key "docker" "myapp") = true ∧
    dictInsert [(process_key "docker" "myapp", 1)] (process_key "docker" "myapp") 2 =
      [(process_key "docker" "myapp", 2)] := by
  constructor
  · rfl
  · rfl

/-- C8 counterexample: the key format `f"{app_type}_{app_name}"` is not
injective on arbitrary pairs: the distinct pairs `("a_b", "c")` and
`("a", "b_c")` share the key `"a_b_c"`. -/
theorem process_key_not_injective :
    process_key "a_b" "c" = process_key "a" "b_c" ∧
    (("a_b", "c") : String × String) ≠ ("a", "b_c") := by
  constructor
  · rfl
  · decide

theorem append_underscore_inj :
    ∀ (l1 l2 r1 r2 : List Char), '_' ∉ l1 → '_' ∉ l2 →
      l1 ++ '_' :: r1 = l2 ++ '_' :: r2 → l1 = l2 ∧ r1 = r2 := by
  intro l1
  induction l1 with
  | nil =>
      intro l2 r1 r2 _ hn2 h
      cases l2 with
      | nil =>
          simp only [List.nil_append, List.cons.injEq] at h
          exact ⟨rfl, h.2⟩
      | cons c l2 =>
          simp only [List.nil_append, List.cons_append, List.cons.injEq] at h
          exact absurd (h.1 ▸ List.mem_cons_self c l2) (h.1 ▸ hn2)
  | cons c l1 ih =>
      intro l2 r1 r2 hn1 hn2 h
      cases l2 with
      | nil =>
          simp only [List.cons_append, List.nil_append, List.cons.injEq] at h
          exact absurd (h.1 ▸ List.mem_cons_self c l1) (by simp [h.1] at hn1 ⊢)
      | cons d l2 =>
          simp only [List.cons_append, List.cons.injEq] at h
          have hrec := ih l2 r1 r2 (fun hm => hn1 (List.mem_cons_of_mem c hm))
            (fun hm => hn2 (List.mem_cons_of_mem d hm)) h.2
          exact ⟨by rw [h.1, hrec.1], hrec.2⟩

/-- C8 (amended): for the app types `deploy_app` actually accepts (the
four keys of `script_map`, none of which contains an underscore), the
mapping from `(app_type, app_name)` to the registry key
`f"{app_type}_{app_name}"` is injective, so two concurrently launched
jobs with distinct accepted identities never share a registry key. -/
theorem process_key_injective_on_script_types (t1 n1 t2 n2 : String)
    (h1 : t1 ∈ script_map_types) (h2 : t2 ∈ script_map_types)
    (h : process_key t1 n1 = process_key t2 n2) : t1 = t2 ∧ n1 = n2 := by
  have hu : ∀ t : String, t ∈ script_map_types → '_' ∉ t.data := by
    intro t ht
    simp only [script_map_types, List.mem_cons, List.not_mem_nil, or_false] at ht
    rcases ht with rfl | rfl | rfl | rfl <;> decide
  have hdata : t1.data ++ '_' :: n1.data = t2.data ++ '_' :: n2.data := by
    have h' := congrArg String.data h
    simpa [process_key, String.data_append] using h'
  have hinj := append_underscore_inj t1.data t2.data n1.data n2.data
    (hu t1 h1) (hu t2 h2) hdata
  exact ⟨String.ext hinj.1, String.ext hinj.2⟩

/-- C8 witness: the amended injectivity applied at a concrete pair of
accepted deployments. -/
theorem process_key_injective_on_script_types_witness :
    ("docker" : String) ∈ script_map_types ∧
    (("docker" : String) = "docker" ∧ ("app1" : String) = "app1") :=
  ⟨by decide,
    process_key_injective_on_script_types "docker" "app1" "docker" "app1"
      (by decide) (by decide) rfl⟩

theorem applyEvent_log_procs (t : Nat) (s : ServerState) (msg lvl : String) :
    (applyEvent t s (Event.log msg lvl)).running_processes = s.running_processes := rfl

theorem exec_logOnly_procs :
    ∀ (es : List Event), (∀ e ∈ es, eventIsLog e = true) →
      ∀ (clock : Nat → Nat) (i0 : Nat) (s : ServerState),
        (execEventsFrom clock i0 s es).running_processes = s.running_processes := by
  intro es
  induction es with
  | nil => intro _ clock i0 s; rfl
  | cons e es ih =>
      intro hlog clock i0 s
      have he := hlog e (List.mem_cons_self e es)
      have hes := fun x hx => hlog x (List.mem_cons_of_mem e hx)
      cases e with
      | log msg lvl =>
          rw [execEventsFrom, ih hes, applyEvent_log_procs]
      | register k pid => simp [eventIsLog] at he
      | unregister k => simp [eventIsLog] at he

theorem lineLogEvents_isLog (app_name : String) (lines : List String) :
    ∀ e ∈ lineLogEvents app_name lines, eventIsLog e = true := by
  intro e he
  obtain ⟨line, _, hf⟩ := List.mem_filterMap.mp he
  by_cases hs : pyStrip line == ""
  · simp [hs] at hf
  · simp only [hs, Bool.false_eq_true, if_false, Option.some.injEq] at hf
    rw [← hf]
    rfl

theorem lineLogEvents_level (app_name : String) (lines : List String) :
    ∀ e ∈ lineLogEvents app_name lines,
      ∃ msg, e = Event.log msg "INFO" := by
  intro e he
  obtain ⟨line, _, hf⟩ := List.mem_filterMap.mp he
  by_cases hs : pyStrip line == ""
  · simp [hs] at hf
  · simp only [hs, Bool.false_eq_true, if_false, Option.some.injEq] at hf
    exact ⟨"[" ++ app_name ++ "] " ++ pyStrip line, hf.symm⟩

theorem exec_append (clock : Nat → Nat) (a : List Event) :
    ∀ (b : List Event) (i0 : Nat) (s : ServerState),
      execEventsFrom clock i0 s (a ++ b) =
        execEventsFrom clock (i0 + a.length) (execEventsFrom clock i0 s a) b := by
  induction a with
  | nil => intro b i0 s; simp [execEventsFrom]
  | cons e es ih =>
      intro b i0 s
      rw [List.cons_append, execEventsFrom, execEventsFrom, ih]
      have harith : i0 + 1 + es.length = i0 + (es.length + 1) := by omega
      rw [harith]
      rfl

theorem dictContains_dictInsert (m : Registry) (k : String) (v : Nat) :
    dictContains (dictInsert m k v) k = true := by
  unfold dictContains dictInsert
  by_cases h : (List.any m fun p => p.1 == k) = true
  · rw [if_pos h, List.any_eq_true]
    obtain ⟨p, hp, hpk⟩ := List.any_eq_true.mp h
    refine ⟨(k, v), List.mem_map.mpr ⟨p, hp, by rw [hpk]; simp⟩, ?_⟩
    simp
  · rw [if_neg h, List.any_append]
    simp

theorem dictContains_dictRemove (m : Registry) (k : String) :
    dictContains (dictRemove m k) k = false := by
  unfold dictContains dictRemove
  rw [List.any_eq_false]
  intro p hp
  have := (List.mem_filter.mp hp).2
  simp only [Bool.not_eq_eq_eq_not, Bool.not_true] at this
  simp [this]

theorem countP_level_lineLogEvents (app_name : String) (lines : List String)
    (lvl : String) (h : lvl ≠ "INFO") :
    List.countP (fun e =>
      match e with
      | Event.log _ l => decide (l = lvl)
      | _ => false) (lineLogEvents app_name lines) = 0 := by
  rw [List.countP_eq_zero]
  intro e he
  obtain ⟨msg, rfl⟩ := lineLogEvents_level app_name lines e he
  simp only [decide_eq_true_eq]
  exact fun hh => h hh.symm

theorem countP_event_lineLogEvents (app_name : String) (lines : List String)
    (msg lvl : String) (h : lvl ≠ "INFO") :
    List.countP (fun e => decide (e = Event.log msg lvl))
      (lineLogEvents app_name lines) = 0 := by
  rw [List.countP_eq_zero]
  intro e he
  obtain ⟨m, rfl⟩ := lineLogEvents_level app_name lines e he
  simp only [decide_eq_true_eq, Event.log.injEq, not_and]
  exact fun _ hh => h hh.symm

/-- C4: in the trace of a job whose process launched: with exit code 0
the trace holds exactly one SUCCESS-level log event, namely
`"Successfully deployed <name>"`, and no ERROR-level event; with a
non-zero exit code it holds no SUCCESS-level event and exactly one
ERROR-level event, namely `"Failed to deploy <name> (exit code: <rc>)"`,
whose message spells out the exit code. -/
theorem job_terminal_logging (app_type app_name : String) (pid : Nat)
    (lines : List String) (rc : Int) :
    countLevel (run_script_async_events app_type app_name
      (LaunchResult.ok pid lines rc)) "SUCCESS" = (if rc = 0 then 1 else 0) ∧
    countLevel (run_script_async_events app_type app_name
      (LaunchResult.ok pid lines rc)) "ERROR" = (if rc = 0 then 0 else 1) ∧
    List.countP (fun e =>
        decide (e = Event.log ("Successfully deployed " ++ app_name) "SUCCESS"))
      (run_script_async_events app_type app_name (LaunchResult.ok pid lines rc)) =
      (if rc = 0 then 1 else 0) ∧
    List.countP (fun e =>
        decide (e = Event.log ("Failed to deploy " ++ app_name ++
          " (exit code: " ++ toString rc ++ ")") "ERROR"))
      (run_script_async_events app_type app_name (LaunchResult.ok pid lines rc)) =
      (if rc = 0 then 0 else 1) := by
  by_cases h : rc = 0
  · subst h
    have hE : run_script_async_events app_type app_name (LaunchResult.ok pid lines 0) =
        Event.log ("Starting " ++ app_type ++ " deployment: " ++ app_name) "INFO" ::
        Event.register (process_key app_type app_name) pid ::
          (lineLogEvents app_name lines ++
            [Event.unregister (process_key app_type app_name),
             Event.log ("Successfully deployed " ++ app_name) "SUCCESS"]) := by
      simp [run_script_async_events]
    rw [hE]
    refine ⟨?_, ?_, ?_, ?_⟩ <;>
      simp [countLevel, List.countP_cons, List.countP_append,
        countP_level_lineLogEvents app_name lines "SUCCESS" (by decide),
        countP_level_lineLogEvents app_name lines "ERROR" (by decide),
        countP_event_lineLogEvents app_name lines _ "SUCCESS" (by decide),
        countP_event_lineLogEvents app_name lines _ "ERROR" (by decide)]
  · have hE : run_script_async_events app_type app_name (LaunchResult.ok pid lines rc) =
        Event.log ("Starting " ++ app_type ++ " deployment: " ++ app_name) "INFO" ::
        Event.register (process_key app_type app_name) pid ::
          (lineLogEvents app_name lines ++
            [Event.unregister (process_key app_type app_name),
             Event.log ("Failed to deploy " ++ app_name ++
               " (exit code: " ++ toString rc ++ ")") "ERROR"]) := by
      simp [run_script_async_events, h]
    rw [hE, if_neg h, if_neg h]
    refine ⟨?_, ?_, ?_, ?_⟩ <;>
      simp [countLevel, List.countP_cons, List.countP_append,
        countP_level_lineLogEvents app_name lines "SUCCESS" (by decide),
        countP_level_lineLogEvents app_name lines "ERROR" (by decide),
        countP_event_lineLogEvents app_name lines _ "SUCCESS" (by decide),
        countP_event_lineLogEvents app_name lines _ "ERROR" (by decide)]

/-- C5: when `subprocess.Popen` raises, the run's trace logs exactly
one ERROR-level event, whose message carries the failure description,
and no step of the run ever touches `running_processes`: the registry
stays what it was, so a key absent before the run is absent at every
point of it. -/
theorem launch_failure_logging (clock : Nat → Nat) (s0 : ServerState)
    (app_type app_name err : String) :
    countLevel (run_script_async_events app_type app_name
      (LaunchResult.failed err)) "ERROR" = 1 ∧
    Event.log ("Error deploying " ++ app_name ++ ": " ++ err) "ERROR" ∈
      run_script_async_events app_type app_name (LaunchResult.failed err) ∧
    (∀ i, (stateAfter clock s0 app_type app_name
      (LaunchResult.failed err) i).running_processes = s0.running_processes) ∧
    (dictContains s0.running_processes (process_key app_type app_name) = false →
      ∀ i, dictContains (stateAfter clock s0 app_type app_name
        (LaunchResult.failed err) i).running_processes
        (process_key app_type app_name) = false) := by
  have hprocs : ∀ i, (stateAfter clock s0 app_type app_name
      (LaunchResult.failed err) i).running_processes = s0.running_processes := by
    intro i
    unfold stateAfter
    apply exec_logOnly_procs
    intro e he
    have hmem := List.take_subset i _ he
    simp only [run_script_async_events, List.mem_cons, List.not_mem_nil,
      or_false] at hmem
    rcases hmem with rfl | rfl <;> rfl
  refine ⟨?_, ?_, hprocs, fun hkey i => by rw [hprocs i]; exact hkey⟩
  · simp [run_script_async_events, countLevel, List.countP_cons]
  · simp [run_script_async_events]

/-- C5 witness: a failed launch from an empty registry leaves the job
key absent even after the whole run. -/
theorem launch_failure_logging_witness :
    dictContains (stateAfter id ⟨[], []⟩ "docker" "myapp"
      (LaunchResult.failed "No such file or directory") 2).running_processes
      (process_key "docker" "myapp") = false :=
  (launch_failure_logging id ⟨[], []⟩ "docker" "myapp"
    "No such file or directory").2.2.2 (by decide) 2

theorem getLast?_lastN_append {n : Nat} (hn : 1 ≤ n) (l : List α) (a : α) :
    (lastN n (l ++ [a])).getLast? = some a := by
  unfold lastN
  rw [List.length_append, List.length_singleton,
    List.drop_append_of_le_length (by omega), List.getLast?_concat]

/-- C7: the output loop body strips each line; a line that is empty
after stripping leaves the log untouched, and a non-empty one appends
exactly one INFO entry whose message is `"[<app_name>] <stripped
line>"` — the new entry becomes the newest, and the length grows by
one up to the cap of 100. -/
theorem output_line_logging (logs : List LogEntry) (app_name : String)
    (t : Nat) (line : String) :
    (pyStrip line = "" → processLine logs app_name t line = logs) ∧
    (pyStrip line ≠ "" → logs.length ≤ 100 →
      processLine logs app_name t line =
        lastN 100 (logs ++ [lineEntry app_name t line]) ∧
      (processLine logs app_name t line).getLast? = some (lineEntry app_name t line) ∧
      (processLine logs app_name t line).length = min (logs.length + 1) 100) := by
  constructor
  · intro h
    simp [processLine, h]
  · intro h hlen
    have hne : (pyStrip line == "") = false := by simp [h]
    have heq : processLine logs app_name t line =
        lastN 100 (logs ++ [lineEntry app_name t line]) := by
      simp only [processLine, lineEntry, hne, Bool.false_eq_true, if_false]
      exact log_message_eq_lastN t _ "INFO" hlen
    refine ⟨heq, ?_, ?_⟩
    · rw [heq]
      exact getLast?_lastN_append (by omega) _ _
    · rw [heq, lastN_length, List.length_append, List.length_singleton]
      omega

/-- C7 witness: a whitespace-only line logs nothing; a padded line logs
its stripped form under the job's name. -/
theorem output_line_logging_witness :
    pyStrip "   " = "" ∧
    processLine [] "myapp" 7 "   " = [] ∧
    processLine [] "myapp" 7 " building " =
      lastN 100 ([] ++ [lineEntry "myapp" 7 " building "]) := by
  refine ⟨by decide, ?_, ?_⟩
  · exact (output_line_logging [] "myapp" 7 "   ").1 (by decide)
  · exact ((output_line_logging [] "myapp" 7 " building ").2 (by decide) (by decide)).1

theorem exec_unregister_procs (clock : Nat → Nat) (i0 : Nat) (s : ServerState)
    (k : String) :
    (execEventsFrom clock i0 s [Event.unregister k]).running_processes =
      dictRemove s.running_processes k := rfl

/-- C2 counterexample: `deploy_app` answers the HTTP caller right
after `thread.start()`, with no synchronisation, so the schedule in
which the daemon thread has not yet run is among the states observable
when the call returns — and there the registry does not contain the
job's key, even though the launch will succeed. -/
theorem deploy_return_key_may_be_absent :
    (⟨[], []⟩ : ServerState) ∈ deploy_app_statesAtReturn id ⟨[], []⟩
      "docker" "myapp" (LaunchResult.ok 1 ["building", "done"] 0) ∧
    dictContains (⟨[], []⟩ : ServerState).running_processes
      (process_key "docker" "myapp") = false := by
  constructor
  · unfold deploy_app_statesAtReturn
    exact List.mem_map.mpr ⟨0, List.mem_range.mpr (Nat.succ_pos _), rfl⟩
  · rfl

/-- C2 (amended): once the background task has performed its
registration step — which happens after the process launch, inside the
daemon thread, not before `deploy_app` returns — the registry contains
the job's key at every point of the run up to and including the last
output-line log; at every point after the conditional delete that
follows `process.wait()` the key is absent and stays absent. -/
theorem job_registry_lifecycle (clock : Nat → Nat) (s0 : ServerState)
    (app_type app_name : String) (pid : Nat) (lines : List String) (rc : Int)
    (i : Nat) :
    (2 ≤ i → i ≤ 2 + (lineLogEvents app_name lines).length →
      dictContains (stateAfter clock s0 app_type app_name
        (LaunchResult.ok pid lines rc) i).running_processes
        (process_key app_type app_name) = true) ∧
    (2 + (lineLogEvents app_name lines).length < i →
      dictContains (stateAfter clock s0 app_type app_name
        (LaunchResult.ok pid lines rc) i).running_processes
        (process_key app_type app_name) = false) := by
  have hE : run_script_async_events app_type app_name (LaunchResult.ok pid lines rc) =
      [Event.log ("Starting " ++ app_type ++ " deployment: " ++ app_name) "INFO",
       Event.register (process_key app_type app_name) pid] ++
      (lineLogEvents app_name lines ++
        ([Event.unregister (process_key app_type app_name)] ++
         [if rc = 0 then Event.log ("Successfully deployed " ++ app_name) "SUCCESS"
          else Event.log ("Failed to deploy " ++ app_name ++
            " (exit code: " ++ toString rc ++ ")") "ERROR"])) := rfl
  constructor
  · intro h2 hle
    obtain ⟨j, rfl⟩ : ∃ j, i = 2 + j := ⟨i - 2, by omega⟩
    have hj : j ≤ (lineLogEvents app_name lines).length := by omega
    unfold stateAfter
    rw [hE, List.take_append_eq_append_take,
      List.take_of_length_le (by simp)]
    have hidx : 2 + j - List.length
        [Event.log ("Starting " ++ app_type ++ " deployment: " ++ app_name) "INFO",
         Event.register (process_key app_type app_name) pid] = j := by
      simp
    rw [hidx, List.take_append_of_le_length hj, exec_append]
    have hlog : ∀ e ∈ (lineLogEvents app_name lines).take j, eventIsLog e = true :=
      fun e he => lineLogEvents_isLog app_name lines e (List.take_subset j _ he)
    rw [exec_logOnly_procs _ hlog]
    exact dictContains_dictInsert s0.running_processes _ pid
  · intro hgt
    obtain ⟨k, rfl⟩ :
        ∃ k, i = 2 + (lineLogEvents app_name lines).length + (k + 1) :=
      ⟨i - (2 + (lineLogEvents app_name lines).length) - 1, by omega⟩
    unfold stateAfter
    rw [hE, List.take_append_eq_append_take,
      List.take_of_length_le (by simp; omega)]
    have hidx : 2 + (lineLogEvents app_name lines).length + (k + 1) - List.length
        [Event.log ("Starting " ++ app_type ++ " deployment: " ++ app_name) "INFO",
         Event.register (process_key app_type app_name) pid] =
        (lineLogEvents app_name lines).length + (k + 1) := by
      simp
      omega
    rw [hidx, List.take_append_eq_append_take,
      List.take_of_length_le (by omega)]
    have hidx2 : (lineLogEvents app_name lines).length + (k + 1) -
        (lineLogEvents app_name lines).length = k + 1 := by omega
    rw [hidx2, List.take_append_eq_append_take,
      List.take_of_length_le (by simp)]
    have hidx3 : k + 1 - List.length
        [Event.unregister (process_key app_type app_name)] = k := by
      simp
    rw [hidx3, exec_append, exec_append, exec_append]
    have hfin : ∀ e ∈ List.take k
        [if rc = 0 then Event.log ("Successfully deployed " ++ app_name) "SUCCESS"
         else Event.log ("Failed to deploy " ++ app_name ++
           " (exit code: " ++ toString rc ++ ")") "ERROR"], eventIsLog e = true := by
      intro e he
      have hmem := List.take_subset k _ he
      simp only [List.mem_singleton] at hmem
      subst hmem
      by_cases h0 : rc = 0 <;> simp [h0, eventIsLog]
    rw [exec_logOnly_procs _ hfin, exec_unregister_procs, dictContains_dictRemove]

/-- C2 witness: right after the registration step of a concrete run
the registry holds the job's key. -/
theorem job_registry_lifecycle_witness :
    dictContains (stateAfter id ⟨[], []⟩ "docker" "myapp"
      (LaunchResult.ok 1 ["hello"] 0) 2).running_processes
      (process_key "docker" "myapp") = true :=
  (job_registry_lifecycle id ⟨[], []⟩ "docker" "myapp" 1 ["hello"] 0 2).1
    (by omega) (by decide)

end Dashboard
